import Mathlib

/-
Shallow embedding of src/bot/plugins/filter/gfilter.py (Z-FileStoreBot).

The similarity metric of the code is difflib.SequenceMatcher (isjunk=None,
autojunk=True), invoked through get_similarity_ratio.  Strings are modelled
as lists of characters and floats as rationals.  External collaborators
(the MongoDB store and the Telegram API) are modelled as explicit inputs;
the observable actions of the code (semaphore acquire and release, outward
API invocations, sleeps, database writes and deletions, log-channel
reports, console logging) are recorded in an event trace.
-/

namespace GFilter

/-- ASCII lower-casing of one character, the effect of Python's str.lower()
on the ASCII range (non-ASCII characters are kept as they are). -/
def lowerChar (c : Char) : Char :=
  if 65 ≤ c.toNat ∧ c.toNat ≤ 90 then Char.ofNat (c.toNat + 32) else c

/-- Python's str.lower(). -/
def pyLower (s : String) : String :=
  ⟨s.data.map lowerChar⟩

/-- Whitespace as stripped by Python's str.strip(). -/
def isSpaceChar (c : Char) : Bool :=
  c == ' ' || c == '\t' || c == '\n' || c == '\r'

/-- Python's str.strip(): drop whitespace from both ends. -/
def pyStrip (s : String) : String :=
  ⟨((s.data.dropWhile isSpaceChar).reverse.dropWhile isSpaceChar).reverse⟩

/-- Python's `needle in hay` substring test, on character lists. -/
def containsSubL (hay needle : List Char) : Bool :=
  (List.range (hay.length + 1)).any (fun i => needle.isPrefixOf (hay.drop i))

/-- Python's `needle in hay` substring test. -/
def containsSub (hay needle : String) : Bool :=
  containsSubL hay.data needle.data

/-- Positions of character `c` inside `b`, in ascending order: the per-element
index lists that difflib builds for the second sequence. -/
def indicesOf (b : List Char) (c : Char) : List Nat :=
  (List.range b.length).filter (fun j => b.get? j == some c)

/-- difflib autojunk: with no junk predicate and a second sequence of length at
least 200, characters occurring in more than one percent of it are dropped
from the index. -/
def isPopular (b : List Char) (c : Char) : Bool :=
  decide (200 ≤ b.length) && decide (b.length / 100 + 1 < b.count c)

/-- The b2j index of difflib after autojunk filtering. -/
def b2jFun (b : List Char) (c : Char) : List Nat :=
  if isPopular b c then [] else indicesOf b c

/-- Running best block of find_longest_match: start in the first sequence,
start in the second sequence, and length. -/
structure FlmBest where
  besti : Nat
  bestj : Nat
  bestsize : Nat
deriving DecidableEq

/-- Inner loop of find_longest_match for one row `i`: walk the ascending index
list of a[i] in b; entries below `blo` are skipped, the walk stops at the
first entry at or beyond `bhi`; each processed entry extends the diagonal
chain recorded in the previous row `j2len` and may improve the running best.
`nj` is the row being built (difflib's newj2len). -/
def flmInner (j2len : Nat → Nat) (blo bhi i : Nat) :
    List Nat → (Nat → Nat) → FlmBest → ((Nat → Nat) × FlmBest)
  | [], nj, best => (nj, best)
  | j :: js, nj, best =>
    if j < blo then flmInner j2len blo bhi i js nj best
    else if bhi ≤ j then (nj, best)
    else
      let k := (if j = 0 then 0 else j2len (j - 1)) + 1
      let nj2 : Nat → Nat := fun j2 => if j2 = j then k else nj j2
      let best2 := if best.bestsize < k then FlmBest.mk (i + 1 - k) (j + 1 - k) k else best
      flmInner j2len blo bhi i js nj2 best2

/-- Outer loop of find_longest_match over the rows (indices of the first
sequence); after each row the freshly built row becomes `j2len`. -/
def flmRows (a : List Char) (bj : Char → List Nat) (blo bhi : Nat) :
    List Nat → (Nat → Nat) → FlmBest → FlmBest
  | [], _, best => best
  | i :: is, j2len, best =>
    let st := flmInner j2len blo bhi i (bj (a.getD i 'a')) (fun _ => 0) best
    flmRows a bj blo bhi is st.1 st.2

/-- The rows range(alo, ahi): `rowsList s n = [s, s+1, ..., s+n-1]`. -/
def rowsList (s : Nat) : Nat → List Nat
  | 0 => []
  | n + 1 => s :: rowsList (s + 1) n

/-- First extension loop of find_longest_match: grow the best block downward
while the characters just before it agree.  With isjunk=None the junk set is
empty, so the junk tests of difflib are vacuous and its junk-extension loops
never fire.  The fuel starts at `besti`; each step needs `alo < besti` and
decrements `besti`, so the loop can never exhaust it. -/
def extendLo (a b : List Char) (alo blo : Nat) : Nat → FlmBest → FlmBest
  | 0, r => r
  | fuel + 1, r =>
    if alo < r.besti ∧ blo < r.bestj ∧ a.getD (r.besti - 1) 'a' = b.getD (r.bestj - 1) 'a' then
      extendLo a b alo blo fuel (FlmBest.mk (r.besti - 1) (r.bestj - 1) (r.bestsize + 1))
    else r

/-- Second extension loop of find_longest_match: grow the best block upward
while the characters just after it agree.  The fuel starts at
`ahi - (besti + bestsize)`; each step needs `besti + bestsize < ahi` and
increments `bestsize`, so the loop can never exhaust it. -/
def extendHi (a b : List Char) (ahi bhi : Nat) : Nat → FlmBest → FlmBest
  | 0, r => r
  | fuel + 1, r =>
    if r.besti + r.bestsize < ahi ∧ r.bestj + r.bestsize < bhi ∧
        a.getD (r.besti + r.bestsize) 'a' = b.getD (r.bestj + r.bestsize) 'a' then
      extendHi a b ahi bhi fuel (FlmBest.mk r.besti r.bestj (r.bestsize + 1))
    else r

/-- difflib's SequenceMatcher.find_longest_match on the region
a[alo:ahi] x b[blo:bhi]. -/
def find_longest_match (a b : List Char) (alo ahi blo bhi : Nat) : FlmBest :=
  let r0 := flmRows a (b2jFun b) blo bhi (rowsList alo (ahi - alo)) (fun _ => 0)
    (FlmBest.mk alo blo 0)
  let r1 := extendLo a b alo blo r0.besti r0
  extendHi a b ahi bhi (ahi - (r1.besti + r1.bestsize)) r1

/-- Total size of the matching blocks that SequenceMatcher.get_matching_blocks
collects: recursively take the longest match of a region and recurse on the
two flanking regions.  The merge pass and the terminal zero-size block of
difflib do not change this sum.  Each recursion level shrinks
`(ahi - alo) + (bhi - blo)` by at least one, so a fuel one above that measure
is never exhausted. -/
def mtFuel (a b : List Char) : Nat → Nat → Nat → Nat → Nat → Nat
  | 0, _, _, _, _ => 0
  | fuel + 1, alo, ahi, blo, bhi =>
    let r := find_longest_match a b alo ahi blo bhi
    if r.bestsize = 0 then 0
    else
      mtFuel a b fuel alo r.besti blo r.bestj + r.bestsize +
        mtFuel a b fuel (r.besti + r.bestsize) ahi (r.bestj + r.bestsize) bhi

/-- Sum of the sizes of all matching blocks of the two sequences. -/
def seqMatches (a b : List Char) : Nat :=
  mtFuel a b (a.length + b.length + 1) 0 a.length 0 b.length

/-- SequenceMatcher.ratio(): `2*M / T` where `M` is the total size of the
matching blocks and `T` the sum of the lengths; 1 when both are empty.
The quotient is built with `mkRat`, which agrees with rational division
whenever `T ≠ 0` (see `seqRatio_eq_div`). -/
def seqRatio (a b : List Char) : ℚ :=
  if a.length + b.length = 0 then 1
  else mkRat (2 * (seqMatches a b : Int)) (a.length + b.length)

/-- gfilter.get_similarity_ratio:
`SequenceMatcher(None, str1, str2).ratio()`. -/
def get_similarity_ratio (str1 str2 : String) : ℚ :=
  seqRatio str1.data str2.data

/-- Observable actions of the code, in program order:
`acquire`/`release` of the request semaphore (the async-with block in
get_invite_link), the cache read (db.grp.find_one), an outbound Telegram
call (bot.invoke of ExportChatInvite), an asyncio.sleep of `n` seconds,
a db.update_link write, a report_error post to the log channel, a plain
console print, and a db.delete_chat removal. -/
inductive Ev where
  | acquire
  | cacheRead
  | apiCall
  | slept (n : Nat)
  | stored (link : String)
  | reported (tag : String)
  | consoleLog
  | release
  | deletedChat
deriving DecidableEq

/-- The cached invite link of a chat document: the "invite_link" subdocument
with its "link" string and "timestamp" (the `.get("timestamp", 0)` default is
folded into the field). -/
structure CachedLink where
  link : String
  timestamp : Int
deriving DecidableEq

/-- Exceptions that the Telegram client can raise, as the code distinguishes
them: errors.ChannelInvalid, any other errors.RPCError (carrying its string
form, which is tested for the substring "CHANNEL_PRIVATE"), and any
exception outside the RPCError hierarchy. -/
inductive Exn where
  | channelInvalid
  | rpcError (msg : String)
  | otherExn (msg : String)
deriving DecidableEq

/-- Outcome of one bot.invoke(ExportChatInvite) call that is not a FloodWait:
a ChatInviteExported result carrying `link` (possibly empty), a result that
is not a ChatInviteExported with a nonempty link, an errors.ChatAdminRequired
exception, or any other exception (caught by the bare `except Exception`
handler of get_invite_link). -/
inductive ApiFinal where
  | exported (link : String)
  | notExported
  | adminRequired
  | raisedApi (e : Exn)
deriving DecidableEq

/-- The fresh-cache check of get_invite_link lines 37-41: the find_one result
must exist, hold an invite_link subdocument with a nonempty link, and satisfy
`time.time() - timestamp < config.CACHE_DURATION`.  `cache` is the find_one
result (`none` = no document, `some none` = document without invite_link). -/
def cacheFresh (cache : Option (Option CachedLink)) (now dur : Int) : Option String :=
  match cache with
  | some (some cl) => if cl.link ≠ "" ∧ now - cl.timestamp < dur then some cl.link else none
  | _ => none

/-- The `while True` loop of get_invite_link, lines 43-65.  A terminating
execution of the loop is a finite sequence of FloodWait signals (the
suggested waits, in seconds) followed by one non-FloodWait outcome; on
FloodWait the code sleeps `int(e.value) + 5` seconds and retries. -/
def issueLoop (fin : ApiFinal) : List Nat → Option String × List Ev
  | [] =>
    match fin with
    | .exported l => if l ≠ "" then (some l, [.apiCall, .stored l]) else (none, [.apiCall])
    | .notExported => (none, [.apiCall])
    | .adminRequired => (none, [.apiCall, .reported "Chat_Admin_Required"])
    | .raisedApi _ => (none, [.apiCall, .consoleLog])
  | w :: ws =>
    let r := issueLoop fin ws
    (r.1, .apiCall :: .slept (w + 5) :: r.2)

/-- gfilter.get_invite_link, lines 33-65.  The whole body runs inside
`async with request_semaphore`, so the trace opens with `acquire` and the
matching `release` is emitted when the function exits, after everything
else — including all FloodWait sleeps. -/
def get_invite_link (cache : Option (Option CachedLink)) (now dur : Int)
    (throttles : List Nat) (fin : ApiFinal) : Option String × List Ev :=
  match cacheFresh cache now dur with
  | some l => (some l, [.acquire, .cacheRead, .release])
  | none =>
    let r := issueLoop fin throttles
    (r.1, .acquire :: .cacheRead :: (r.2 ++ [.release]))

/-- How the candidate's title is obtained in process_channel lines 74-81:
from the chat document of the db (`cached`), from bot.get_chat (`fetched`),
or the lookup raised an exception. -/
inductive TitleFetch where
  | cached (title : String)
  | fetched (title : String)
  | raised (e : Exn)
deriving DecidableEq

/-- A successful match record as built by process_channel: title, invite
link and SequenceMatcher similarity. -/
structure MatchRec where
  title : String
  link : String
  similarity : ℚ
deriving DecidableEq

/-- The external world as one candidate sees it: how its title resolves,
the chat document for the invite-link cache, and the scripted behaviour of
the Telegram invite-export call. -/
structure ChanEnv where
  titleFetch : TitleFetch
  cache : Option (Option CachedLink)
  throttles : List Nat
  fin : ApiFinal
deriving DecidableEq

/-- The scoring part of process_channel, lines 83-92: score the lowered
title against the query; only when the similarity is strictly above 0.6 is
get_invite_link called, and only a truthy (nonempty) link yields a match
record. -/
def processScored (s : String) (now dur : Int) (cache : Option (Option CachedLink))
    (throttles : List Nat) (fin : ApiFinal) (title : String) :
    Except Exn (Option MatchRec × List Ev) :=
  let sim := get_similarity_ratio s title
  if mkRat 3 5 < sim then
    let r := get_invite_link cache now dur throttles fin
    match r.1 with
    | some l => if l ≠ "" then .ok (some ⟨title, l, sim⟩, r.2) else .ok (none, r.2)
    | none => .ok (none, r.2)
  else .ok (none, [])

/-- gfilter.process_channel, lines 71-102.  The handlers catch
errors.ChannelInvalid (report, delete from db) and other errors.RPCError
(report and delete when the text contains "CHANNEL_PRIVATE", otherwise
report only); an exception outside the RPCError hierarchy is not caught and
propagates (as `.error`). -/
def process_channel (s : String) (now dur : Int) (env : ChanEnv) :
    Except Exn (Option MatchRec × List Ev) :=
  match env.titleFetch with
  | .cached t => processScored s now dur env.cache env.throttles env.fin (pyLower t)
  | .fetched t => processScored s now dur env.cache env.throttles env.fin (pyLower t)
  | .raised .channelInvalid =>
    .ok (none, [.reported "Channel_Invalid", .deletedChat])
  | .raised (.rpcError msg) =>
    if containsSub msg "CHANNEL_PRIVATE" then
      .ok (none, [.reported "Channel_Private", .deletedChat])
    else
      .ok (none, [.reported "Channel_Error"])
  | .raised (.otherExn msg) => .error (.otherExn msg)

/-- Trace of a processed candidate (empty when the processing threw). -/
def chanTrace : Except Exn (Option MatchRec × List Ev) → List Ev
  | .ok r => r.2
  | .error _ => []

deriving instance DecidableEq for Except

/-- One entry of the asyncio.gather(..., return_exceptions=True) result:
either the returned value or the captured exception object; the subsequent
`isinstance(r, dict)` filter keeps exactly the match dictionaries. -/
def gatherOne (s : String) (now dur : Int) (env : ChanEnv) : Option MatchRec :=
  match process_channel s now dur env with
  | .ok r => r.1
  | .error _ => none

/-- gfilter.process_batch, lines 104-108: gather all candidates of the
batch with return_exceptions=True and keep the match dictionaries, in
order. -/
def process_batch (s : String) (now dur : Int) (batch : List ChanEnv) : List MatchRec :=
  batch.filterMap (gatherOne s now dur)

/-- One step of Python's `max(matches, key=...)`: the running maximum is
replaced only on a strictly greater key, so the first maximum wins. -/
def bestStep (best x : MatchRec) : MatchRec :=
  if best.similarity < x.similarity then x else best

/-- gfilter.get_best_match, lines 168-173: `max` on similarity, `None` on an
empty list. -/
def get_best_match : List MatchRec → Option MatchRec
  | [] => none
  | m :: ms => some (ms.foldl bestStep m)

/-- The batches `chats[i:i+10]` for i = 0, 10, 20, ... (batch_size = 10 in
search_channels).  Each step removes at least one element of a nonempty
list, so the length of the list is sufficient fuel. -/
def chunksAux : Nat → List ChanEnv → List (List ChanEnv)
  | 0, _ => []
  | _, [] => []
  | fuel + 1, x :: xs => ((x :: xs).take 10) :: chunksAux fuel ((x :: xs).drop 10)

/-- All batches of the chat list. -/
def chunks (l : List ChanEnv) : List (List ChanEnv) :=
  chunksAux l.length l

/-- The batch loop of search_channels, lines 128-135: process a batch,
extend all_matches, and break when the best accumulated match has
similarity strictly above 0.8.  Returns the accumulated matches and the
number of batches that were processed. -/
def scanLoop (s : String) (now dur : Int) : List (List ChanEnv) → List MatchRec →
    List MatchRec × Nat
  | [], acc => (acc, 0)
  | batch :: rest, acc =>
    let acc2 := acc ++ process_batch s now dur batch
    match get_best_match acc2 with
    | some m =>
      if mkRat 4 5 < m.similarity then (acc2, 1)
      else
        let r := scanLoop s now dur rest acc2
        (r.1, r.2 + 1)
    | none =>
      let r := scanLoop s now dur rest acc2
      (r.1, r.2 + 1)

/-- What search_channels sends back to the requester: the best-match reply
with its button, the "Try searching with different spelling or keywords."
suggestion, or the generic error reply of the outer handler. -/
inductive Reply where
  | matched (title link : String)
  | suggest
  | errored
deriving DecidableEq

/-- Observable outcome of one search_channels invocation. -/
structure SearchOut where
  replies : List Reply
  batchesScanned : Nat
  found : List MatchRec
deriving DecidableEq

/-- gfilter.search_channels, lines 112-166: lower and strip the message
text, return silently when fewer than 3 characters remain, otherwise scan
the directory in batches of 10 and reply with the best match, or with the
suggestion text when there is none. -/
def search_channels (text : String) (now dur : Int) (chats : List ChanEnv) : SearchOut :=
  let s := pyStrip (pyLower text)
  if s.length < 3 then ⟨[], 0, []⟩
  else
    let r := scanLoop s now dur (chunks chats) []
    match get_best_match r.1 with
    | some m => ⟨[.matched m.title m.link], r.2, r.1⟩
    | none => ⟨[.suggest], r.2, r.1⟩

/-- Events of the FloodWait part of an issue loop: one API call and one
sleep of `w + 5` seconds per throttle signal. -/
def throttleEvs : List Nat → List Ev
  | [] => []
  | w :: ws => .apiCall :: .slept (w + 5) :: throttleEvs ws

/-- Python's str.split(" "): split on every single space, keeping empty
pieces. -/
def splitSp : List Char → List (List Char)
  | [] => [[]]
  | c :: cs =>
    if c = ' ' then [] :: splitSp cs
    else
      match splitSp cs with
      | [] => [[c]]
      | t :: ts => (c :: t) :: ts

/-- Lexicographic order on character lists by code point, as Python compares
strings. -/
def lexLe : List Char → List Char → Bool
  | [], _ => true
  | _ :: _, [] => false
  | a :: as, b :: bs => if a = b then lexLe as bs else decide (a < b)

/-- Modelled from the spec (no counterpart in the code): insertion of a
token into a sorted token list, for the order-invariant token similarity. -/
def insertSorted (x : List Char) : List (List Char) → List (List Char)
  | [] => [x]
  | y :: ys => if lexLe x y then x :: y :: ys else y :: insertSorted x ys

/-- Modelled from the spec: insertion sort of a token list. -/
def sortTokenList : List (List Char) → List (List Char)
  | [] => []
  | x :: xs => insertSorted x (sortTokenList xs)

/-- Join tokens with single spaces. -/
def joinSp : List (List Char) → List Char
  | [] => []
  | [t] => t
  | t :: ts => t ++ ' ' :: joinSp ts

/-- Modelled from the spec: a string with its whitespace-delimited tokens
sorted. -/
def sortTokens (s : String) : List Char :=
  joinSp (sortTokenList (splitSp s.data))

/-- Modelled from the spec: "order-invariant token similarity: similarity of
the two strings after independently sorting each string's
whitespace-delimited tokens", on the 0-100 scale of the spec. -/
def specTokenSortSim (q t : String) : ℚ :=
  100 * seqRatio (sortTokens q) (sortTokens t)

/-- The contiguous windows of length `n` of a list. -/
def windowsOf (longer : List Char) (n : Nat) : List (List Char) :=
  (List.range (longer.length - n + 1)).map (fun i => (longer.drop i).take n)

/-- Best similarity of the shorter string against any contiguous window of
the longer one. -/
def bestWindowRatio (q t : String) : ℚ :=
  let p := if q.length ≤ t.length then (q.data, t.data) else (t.data, q.data)
  ((windowsOf p.2 p.1.length).map (fun w => seqRatio p.1 w)).foldl max 0

/-- Modelled from the spec: "substring containment similarity: best-alignment
similarity of the shorter string as a contiguous substring of the longer",
on the 0-100 scale of the spec. -/
def specContainSim (q t : String) : ℚ :=
  100 * bestWindowRatio q t

/-- Modelled from the spec: "Combined score = 0.7 x order-invariant + 0.3 x
containment". -/
def specCombinedScore (q t : String) : ℚ :=
  (7 : ℚ) / 10 * specTokenSortSim q t + (3 : ℚ) / 10 * specContainSim q t

/-- Modelled from the spec: "a boolean keyword hit is true if any query token
longer than 2 characters appears literally in the normalized title". -/
def specKeywordHit (q t : String) : Bool :=
  (splitSp q.data).any (fun tok => decide (2 < tok.length) && containsSubL t.data tok)


/-- Row invariant of the inner loop: every nonzero chain length recorded for
column `j` means `j` lies inside `[blo, bhi)`, the chain fits above `blo`,
and its length is at most `bound`. -/
def RowBound (blo bhi bound : Nat) (f : Nat → Nat) : Prop :=
  ∀ j, f j ≠ 0 → blo ≤ j ∧ j < bhi ∧ f j ≤ j + 1 - blo ∧ f j ≤ bound

/-- Invariant of the running best block: it starts inside the region, a
zero-size block still sits at the region origin, and a nonzero block lies
entirely inside the region. -/
def BestOk (alo ahi blo bhi : Nat) (r : FlmBest) : Prop :=
  alo ≤ r.besti ∧ blo ≤ r.bestj ∧
  (r.bestsize = 0 → r.besti = alo ∧ r.bestj = blo) ∧
  (1 ≤ r.bestsize → r.besti + r.bestsize ≤ ahi ∧ r.bestj + r.bestsize ≤ bhi)

theorem flmInner_ok (alo ahi blo bhi : Nat) :
    ∀ (js : List Nat) (j2len nj : Nat → Nat) (best : FlmBest) (i : Nat),
    alo ≤ i → i < ahi →
    RowBound blo bhi (i - alo) j2len →
    RowBound blo bhi (i + 1 - alo) nj →
    BestOk alo ahi blo bhi best →
    RowBound blo bhi (i + 1 - alo) (flmInner j2len blo bhi i js nj best).1 ∧
      BestOk alo ahi blo bhi (flmInner j2len blo bhi i js nj best).2 := by
  intro js
  induction js with
  | nil =>
    intro j2len nj best i hai hia hj2 hnj hbest
    exact ⟨hnj, hbest⟩
  | cons j js ih =>
    intro j2len nj best i hai hia hj2 hnj hbest
    by_cases h1 : j < blo
    · simpa [flmInner, h1] using ih j2len nj best i hai hia hj2 hnj hbest
    · by_cases h2 : bhi ≤ j
      · simpa [flmInner, h1, h2] using ⟨hnj, hbest⟩
      · have hk1 : (if j = 0 then 0 else j2len (j - 1)) + 1 ≤ j + 1 - blo := by
          by_cases hj0 : j = 0
          · simp [hj0]; omega
          · simp only [hj0, if_false]
            by_cases hz : j2len (j - 1) = 0
            · rw [hz]; omega
            · have := hj2 (j - 1) hz
              omega
        have hk2 : (if j = 0 then 0 else j2len (j - 1)) + 1 ≤ i + 1 - alo := by
          by_cases hj0 : j = 0
          · simp [hj0]; omega
          · simp only [hj0, if_false]
            by_cases hz : j2len (j - 1) = 0
            · rw [hz]; omega
            · have := hj2 (j - 1) hz
              omega
        have hblo : blo ≤ j := by omega
        have hbhi : j < bhi := by omega
        simp only [flmInner]
        rw [if_neg h1, if_neg h2]
        refine ih j2len _ _ i hai hia hj2 ?_ ?_
        · intro j2 hne
          dsimp only at hne ⊢
          by_cases hjj : j2 = j
          · subst hjj
            rw [if_pos rfl] at hne ⊢
            exact ⟨hblo, hbhi, hk1, hk2⟩
          · rw [if_neg hjj] at hne ⊢
            exact hnj j2 hne
        · by_cases hb : best.bestsize < (if j = 0 then 0 else j2len (j - 1)) + 1
          · rw [if_pos hb]
            obtain ⟨b1, b2, b3, b4⟩ := hbest
            refine ⟨?_, ?_, ?_, ?_⟩ <;> simp only [FlmBest.mk] <;> omega
          · rw [if_neg hb]
            exact hbest

theorem flmRows_ok (a : List Char) (bj : Char → List Nat) (alo ahi blo bhi : Nat) :
    ∀ (n i : Nat) (j2len : Nat → Nat) (best : FlmBest),
    alo ≤ i → (n ≠ 0 → i + n ≤ ahi) →
    RowBound blo bhi (i - alo) j2len →
    BestOk alo ahi blo bhi best →
    BestOk alo ahi blo bhi (flmRows a bj blo bhi (rowsList i n) j2len best) := by
  intro n
  induction n with
  | zero =>
    intro i j2len best hai hn hj2 hbest
    simpa [rowsList, flmRows] using hbest
  | succ n ih =>
    intro i j2len best hai hn hj2 hbest
    have hia : i < ahi := by
      have := hn (by omega)
      omega
    simp only [rowsList, flmRows]
    have h := flmInner_ok alo ahi blo bhi (bj (a.getD i 'a')) j2len (fun _ => 0) best i hai hia
      hj2 (fun j hj => absurd rfl hj) hbest
    refine ih (i + 1) _ _ (by omega) (fun hne => ?_) ?_ h.2
    · have := hn (by omega)
      omega
    · exact h.1

theorem extendLo_ok (a b : List Char) (alo blo ahi bhi : Nat) :
    ∀ (fuel : Nat) (r : FlmBest), BestOk alo ahi blo bhi r →
    BestOk alo ahi blo bhi (extendLo a b alo blo fuel r) := by
  intro fuel
  induction fuel with
  | zero => intro r h; simpa [extendLo] using h
  | succ fuel ih =>
    intro r h
    by_cases hc : alo < r.besti ∧ blo < r.bestj ∧
        a.getD (r.besti - 1) 'a' = b.getD (r.bestj - 1) 'a'
    · simp only [extendLo, if_pos hc]
      obtain ⟨h1, h2, h3, h4⟩ := h
      refine ih _ ⟨?_, ?_, ?_, ?_⟩ <;> simp only
      · omega
      · omega
      · omega
      · intro h5
        have hs1 : 1 ≤ r.bestsize := by
          by_contra hz
          have hz0 : r.bestsize = 0 := by omega
          have := h3 hz0
          omega
        have := h4 hs1
        omega
    · simp only [extendLo, if_neg hc]
      exact h

theorem extendHi_ok (a b : List Char) (alo blo ahi bhi : Nat) :
    ∀ (fuel : Nat) (r : FlmBest), BestOk alo ahi blo bhi r →
    BestOk alo ahi blo bhi (extendHi a b ahi bhi fuel r) := by
  intro fuel
  induction fuel with
  | zero => intro r h; simpa [extendHi] using h
  | succ fuel ih =>
    intro r h
    by_cases hc : r.besti + r.bestsize < ahi ∧ r.bestj + r.bestsize < bhi ∧
        a.getD (r.besti + r.bestsize) 'a' = b.getD (r.bestj + r.bestsize) 'a'
    · simp only [extendHi, if_pos hc]
      obtain ⟨h1, h2, h3, h4⟩ := h
      refine ih _ ⟨?_, ?_, ?_, ?_⟩ <;> simp only
      · omega
      · omega
      · omega
      · intro h5
        omega
    · simp only [extendHi, if_neg hc]
      exact h

theorem flm_ok (a b : List Char) (alo ahi blo bhi : Nat) :
    BestOk alo ahi blo bhi (find_longest_match a b alo ahi blo bhi) := by
  have h0 : BestOk alo ahi blo bhi (FlmBest.mk alo blo 0) := by
    refine ⟨Nat.le_refl _, Nat.le_refl _, fun _ => ⟨rfl, rfl⟩, fun h => ?_⟩
    simp only at h
    omega
  have hrows := flmRows_ok a (b2jFun b) alo ahi blo bhi (ahi - alo) alo (fun _ => 0)
    (FlmBest.mk alo blo 0) (Nat.le_refl _) (fun hne => by omega)
    (fun j hj => absurd rfl hj) h0
  unfold find_longest_match
  exact extendHi_ok a b alo blo ahi bhi _ _ (extendLo_ok a b alo blo ahi bhi _ _ hrows)

theorem mtFuel_le (a b : List Char) :
    ∀ (fuel alo ahi blo bhi : Nat),
    mtFuel a b fuel alo ahi blo bhi ≤ ahi - alo ∧ mtFuel a b fuel alo ahi blo bhi ≤ bhi - blo := by
  intro fuel
  induction fuel with
  | zero => intro alo ahi blo bhi; simp [mtFuel]
  | succ fuel ih =>
    intro alo ahi blo bhi
    have hok := flm_ok a b alo ahi blo bhi
    obtain ⟨h1, h2, h3, h4⟩ := hok
    by_cases hz : (find_longest_match a b alo ahi blo bhi).bestsize = 0
    · simp [mtFuel, hz]
    · have hs : 1 ≤ (find_longest_match a b alo ahi blo bhi).bestsize := by omega
      have h5 := h4 hs
      simp only [mtFuel, if_neg hz]
      have ihl := ih alo (find_longest_match a b alo ahi blo bhi).besti blo
        (find_longest_match a b alo ahi blo bhi).bestj
      have ihr := ih ((find_longest_match a b alo ahi blo bhi).besti +
          (find_longest_match a b alo ahi blo bhi).bestsize) ahi
        ((find_longest_match a b alo ahi blo bhi).bestj +
          (find_longest_match a b alo ahi blo bhi).bestsize) bhi
      omega

theorem seqMatches_le (a b : List Char) :
    seqMatches a b ≤ a.length ∧ seqMatches a b ≤ b.length := by
  have := mtFuel_le a b (a.length + b.length + 1) 0 a.length 0 b.length
  simpa [seqMatches] using this

theorem seqRatio_eq_div (a b : List Char) (h : a.length + b.length ≠ 0) :
    seqRatio a b = (2 * (seqMatches a b : ℚ)) / ((a.length : ℚ) + (b.length : ℚ)) := by
  unfold seqRatio
  rw [if_neg h, Rat.mkRat_eq_div]
  push_cast
  ring

theorem seqRatio_nonneg (a b : List Char) : 0 ≤ seqRatio a b := by
  unfold seqRatio
  by_cases h : a.length + b.length = 0
  · rw [if_pos h]
    norm_num
  · rw [if_neg h, Rat.mkRat_eq_div]
    push_cast
    positivity

theorem seqRatio_le_one (a b : List Char) : seqRatio a b ≤ 1 := by
  unfold seqRatio
  by_cases h : a.length + b.length = 0
  · rw [if_pos h]
  · rw [if_neg h, Rat.mkRat_eq_div]
    have hpos : (0 : ℚ) < ((a.length + b.length : Nat) : ℚ) := by
      exact_mod_cast Nat.pos_of_ne_zero h
    rw [div_le_one hpos]
    have hm := seqMatches_le a b
    have hnat : 2 * seqMatches a b ≤ a.length + b.length := by omega
    exact_mod_cast hnat


/-- A terminating issue loop that ends in a ChatInviteExported with a nonempty
link returns that link; its trace is the FloodWait part followed by the final
call and the cache write. -/
theorem issueLoop_exported (l : String) (hl : l ≠ "") :
    ∀ ths : List Nat,
    issueLoop (.exported l) ths = (some l, throttleEvs ths ++ [.apiCall, .stored l]) := by
  intro ths
  induction ths with
  | nil => simp [issueLoop, throttleEvs, hl]
  | cons w ws ih => simp [issueLoop, throttleEvs, ih]

/-- A terminating issue loop that ends in ChatAdminRequired reports and
returns nothing. -/
theorem issueLoop_admin :
    ∀ ths : List Nat,
    issueLoop .adminRequired ths =
      (none, throttleEvs ths ++ [.apiCall, .reported "Chat_Admin_Required"]) := by
  intro ths
  induction ths with
  | nil => simp [issueLoop, throttleEvs]
  | cons w ws ih => simp [issueLoop, throttleEvs, ih]

/-- A terminating issue loop that ends in any other exception only prints and
returns nothing. -/
theorem issueLoop_raised (e : Exn) :
    ∀ ths : List Nat,
    issueLoop (.raisedApi e) ths = (none, throttleEvs ths ++ [.apiCall, .consoleLog]) := by
  intro ths
  induction ths with
  | nil => simp [issueLoop, throttleEvs]
  | cons w ws ih => simp [issueLoop, throttleEvs, ih]

/-- The issue loop never touches the semaphore: its whole execution happens
inside the enclosing async-with block. -/
theorem issueLoop_no_sem (fin : ApiFinal) :
    ∀ ths : List Nat,
    Ev.acquire ∉ (issueLoop fin ths).2 ∧ Ev.release ∉ (issueLoop fin ths).2 := by
  intro ths
  induction ths with
  | nil =>
    cases fin with
    | exported l =>
      by_cases hl : l = ""
      · simp [issueLoop, hl]
      · simp [issueLoop, hl]
    | notExported => simp [issueLoop]
    | adminRequired => simp [issueLoop]
    | raisedApi e => simp [issueLoop]
  | cons w ws ih => simpa [issueLoop] using ih

/-- The last element of a cons of an append ending in a singleton. -/
theorem getLast?_cons_concat (x : Ev) (l : List Ev) (y : Ev) :
    (x :: (l ++ [y])).getLast? = some y := by
  rw [show x :: (l ++ [y]) = (x :: l) ++ [y] from rfl]
  exact List.getLast?_concat _

/-- Semaphore discipline of get_invite_link: every trace starts with the
acquire, ends with the matching release, and each occurs exactly once. -/
theorem gil_sem_shape (cache : Option (Option CachedLink)) (now dur : Int)
    (ths : List Nat) (fin : ApiFinal) :
    (get_invite_link cache now dur ths fin).2.head? = some Ev.acquire ∧
    (get_invite_link cache now dur ths fin).2.getLast? = some Ev.release ∧
    (get_invite_link cache now dur ths fin).2.count Ev.acquire = 1 ∧
    (get_invite_link cache now dur ths fin).2.count Ev.release = 1 := by
  unfold get_invite_link
  cases hcf : cacheFresh cache now dur with
  | some l => simp
  | none =>
    have hmem := issueLoop_no_sem fin ths
    refine ⟨by simp, ?_, ?_, ?_⟩
    · exact getLast?_cons_concat Ev.acquire (Ev.cacheRead :: (issueLoop fin ths).2) Ev.release
    · simp [List.count_cons, List.count_append, List.count_eq_zero.mpr hmem.1]
    · simp [List.count_cons, List.count_append, List.count_eq_zero.mpr hmem.2]


/-- Claim C5: a resource whose cached link is present (nonempty) and issued
within CACHE_DURATION of the current time is served from the cache and the
external export operation is never invoked (no apiCall event occurs). -/
theorem C5_theorem (now dur : Int) (ths : List Nat) (fin : ApiFinal) (cl : CachedLink)
    (h1 : cl.link ≠ "") (h2 : now - cl.timestamp < dur) :
    get_invite_link (some (some cl)) now dur ths fin =
      (some cl.link, [.acquire, .cacheRead, .release]) := by
  simp [get_invite_link, cacheFresh, h1, h2]

/-- Claim C3 (amended): on a throttle signal the provisioner keeps holding
its semaphore slot, suspends for the suggested wait plus the fixed 5-second
margin, and retries; any finite number of throttles followed by a successful
export returns the link without error, mutates the dataset only by the one
final store, and releases the slot exactly once, at the very end of the
call — not before the sleeps. -/
theorem C3_theorem (cache : Option (Option CachedLink)) (now dur : Int)
    (ths : List Nat) (l : String) (hc : cacheFresh cache now dur = none) (hl : l ≠ "") :
    get_invite_link cache now dur ths (.exported l) =
      (some l, .acquire :: .cacheRead :: (throttleEvs ths ++ [.apiCall, .stored l, .release])) := by
  unfold get_invite_link
  rw [hc, issueLoop_exported l hl ths]
  simp

/-- Characterization of a successful scored candidate. -/
theorem processScored_ok_some (s : String) (now dur : Int) (cache : Option (Option CachedLink))
    (ths : List Nat) (fin : ApiFinal) (title : String) (m : MatchRec) (evs : List Ev)
    (h : processScored s now dur cache ths fin title = .ok (some m, evs)) :
    m.title = title ∧ m.link ≠ "" ∧ m.similarity = get_similarity_ratio s title ∧
      mkRat 3 5 < m.similarity := by
  simp only [processScored] at h
  by_cases hsim : mkRat 3 5 < get_similarity_ratio s title
  · rw [if_pos hsim] at h
    cases hr : (get_invite_link cache now dur ths fin).1 with
    | none => rw [hr] at h; simp at h
    | some l =>
      rw [hr] at h
      dsimp only at h
      by_cases hl : l = ""
      · rw [if_neg (by simp [hl])] at h
        simp at h
      · rw [if_pos hl] at h
        simp only [Except.ok.injEq, Prod.mk.injEq, Option.some.injEq] at h
        obtain ⟨hm, hevs⟩ := h
        subst hm
        exact ⟨rfl, hl, rfl, hsim⟩
  · rw [if_neg hsim] at h
    simp at h

/-- Every match produced by process_channel carries a nonempty link and a
similarity strictly above the 0.6 threshold. -/
theorem process_channel_some_inv (s : String) (now dur : Int) (env : ChanEnv) (m : MatchRec)
    (evs : List Ev) (h : process_channel s now dur env = .ok (some m, evs)) :
    m.link ≠ "" ∧ mkRat 3 5 < m.similarity := by
  obtain ⟨tf, c, th, f⟩ := env
  cases tf with
  | cached t =>
    have h2 : processScored s now dur c th f (pyLower t) = .ok (some m, evs) := h
    have h3 := processScored_ok_some s now dur c th f _ m evs h2
    exact ⟨h3.2.1, h3.2.2.2⟩
  | fetched t =>
    have h2 : processScored s now dur c th f (pyLower t) = .ok (some m, evs) := h
    have h3 := processScored_ok_some s now dur c th f _ m evs h2
    exact ⟨h3.2.1, h3.2.2.2⟩
  | raised e =>
    cases e with
    | channelInvalid => simp [process_channel] at h
    | rpcError msg =>
      by_cases hp : containsSub msg "CHANNEL_PRIVATE"
      · simp [process_channel, hp] at h
      · simp [process_channel, hp] at h
    | otherExn msg => simp [process_channel] at h


/-- Folding bestStep over candidates that never beat `m` keeps `m`. -/
theorem foldl_bestStep_le (m : MatchRec) :
    ∀ ms : List MatchRec, (∀ x ∈ ms, x.similarity ≤ m.similarity) →
    ms.foldl bestStep m = m := by
  intro ms
  induction ms with
  | nil => intro h; rfl
  | cons x xs ih =>
    intro h
    have hx : ¬ m.similarity < x.similarity := not_lt.mpr (h x (by simp))
    simp only [List.foldl_cons]
    rw [show bestStep m x = m from if_neg hx]
    exact ih (fun y hy => h y (by simp [hy]))

/-- Folding bestStep over a strictly weaker prefix, then `m`, then a suffix
that never beats `m`, returns `m`: Python's max keeps the first maximum. -/
theorem foldl_bestStep_first (m : MatchRec) :
    ∀ (ps : List MatchRec) (b : MatchRec) (suf : List MatchRec),
    b.similarity < m.similarity →
    (∀ x ∈ ps, x.similarity < m.similarity) →
    (∀ x ∈ suf, x.similarity ≤ m.similarity) →
    (ps ++ m :: suf).foldl bestStep b = m := by
  intro ps
  induction ps with
  | nil =>
    intro b suf hb hps hsuf
    simp only [List.nil_append, List.foldl_cons]
    rw [show bestStep b m = m from if_pos hb]
    exact foldl_bestStep_le m suf hsuf
  | cons p ps ih =>
    intro b suf hb hps hsuf
    simp only [List.cons_append, List.foldl_cons]
    have hp : p.similarity < m.similarity := hps p (by simp)
    by_cases hc : b.similarity < p.similarity
    · rw [show bestStep b p = p from if_pos hc]
      exact ih p suf hp (fun x hx => hps x (by simp [hx])) hsuf
    · rw [show bestStep b p = b from if_neg hc]
      exact ih b suf hb (fun x hx => hps x (by simp [hx])) hsuf

/-- The bestStep fold result dominates the seed and every element. -/
theorem foldl_bestStep_ge :
    ∀ (ms : List MatchRec) (b : MatchRec),
    b.similarity ≤ (ms.foldl bestStep b).similarity ∧
      ∀ x ∈ ms, x.similarity ≤ (ms.foldl bestStep b).similarity := by
  intro ms
  induction ms with
  | nil => intro b; simp
  | cons y ys ih =>
    intro b
    have hstep : b.similarity ≤ (bestStep b y).similarity ∧
        y.similarity ≤ (bestStep b y).similarity := by
      unfold bestStep
      by_cases hc : b.similarity < y.similarity
      · rw [if_pos hc]
        exact ⟨le_of_lt hc, le_refl _⟩
      · rw [if_neg hc]
        exact ⟨le_refl _, not_lt.mp hc⟩
    simp only [List.foldl_cons]
    refine ⟨le_trans hstep.1 (ih (bestStep b y)).1, ?_⟩
    intro x hx
    rcases List.mem_cons.mp hx with hxy | hxs
    · rw [hxy]
      exact le_trans hstep.2 (ih (bestStep b y)).1
    · exact (ih (bestStep b y)).2 x hxs

/-- get_best_match returns a maximal element. -/
theorem get_best_match_max (l : List MatchRec) (b : MatchRec)
    (hb : get_best_match l = some b) : ∀ x ∈ l, x.similarity ≤ b.similarity := by
  cases l with
  | nil => simp [get_best_match] at hb
  | cons m ms =>
    simp only [get_best_match, Option.some.injEq] at hb
    subst hb
    intro x hx
    rcases List.mem_cons.mp hx with hxy | hxs
    · subst hxy
      exact (foldl_bestStep_ge ms x).1
    · exact (foldl_bestStep_ge ms m).2 x hxs

/-- Claim C8: first-seen wins on ties.  For any candidate whose predecessors
in scan order all score strictly lower and whose successors never score
higher (in particular, a later candidate with the identical score),
get_best_match returns exactly this earliest maximal candidate. -/
theorem C8_theorem (pre suf : List MatchRec) (m : MatchRec)
    (hpre : ∀ x ∈ pre, x.similarity < m.similarity)
    (hsuf : ∀ x ∈ suf, x.similarity ≤ m.similarity) :
    get_best_match (pre ++ m :: suf) = some m := by
  cases pre with
  | nil =>
    simp only [List.nil_append, get_best_match, Option.some.injEq]
    exact foldl_bestStep_le m suf hsuf
  | cons p ps =>
    simp only [List.cons_append, get_best_match, Option.some.injEq]
    exact foldl_bestStep_first m ps p suf (hpre p (by simp))
      (fun x hx => hpre x (by simp [hx])) hsuf

/-- Once the matches accumulated through the current batch contain a
similarity strictly above 0.8, the scan stops with this batch. -/
theorem scanLoop_stops (s : String) (now dur : Int) (batch : List ChanEnv)
    (rest : List (List ChanEnv)) (acc : List MatchRec) (m : MatchRec)
    (hm : m ∈ acc ++ process_batch s now dur batch)
    (hs : mkRat 4 5 < m.similarity) :
    scanLoop s now dur (batch :: rest) acc = (acc ++ process_batch s now dur batch, 1) := by
  simp only [scanLoop]
  cases hg : get_best_match (acc ++ process_batch s now dur batch) with
  | none =>
    exfalso
    cases hl : acc ++ process_batch s now dur batch with
    | nil => rw [hl] at hm; simp at hm
    | cons a as =>
      rw [hl] at hg
      simp [get_best_match] at hg
  | some b =>
    have hmax := get_best_match_max _ b hg m hm
    have hb : mkRat 4 5 < b.similarity := lt_of_lt_of_le hs hmax
    dsimp only
    rw [if_pos hb]


/-- Claim C4 (amended): the link provisioner is invoked for a scanned
candidate if and only if its SequenceMatcher similarity is strictly greater
than 0.6 (a similarity of exactly 0.6 is not eligible); keyword hits play no
role whatsoever. -/
theorem C4_theorem (s : String) (now dur : Int) (title : String)
    (cache : Option (Option CachedLink)) (ths : List Nat) (fin : ApiFinal) :
    (chanTrace (process_channel s now dur ⟨.cached title, cache, ths, fin⟩)).count Ev.acquire = 1
      ↔ mkRat 3 5 < get_similarity_ratio s (pyLower title) := by
  show (chanTrace (processScored s now dur cache ths fin (pyLower title))).count Ev.acquire = 1
      ↔ _
  simp only [processScored]
  by_cases hsim : mkRat 3 5 < get_similarity_ratio s (pyLower title)
  · rw [if_pos hsim]
    simp only [hsim, iff_true]
    have hcnt := (gil_sem_shape cache now dur ths fin).2.2.1
    cases hr : (get_invite_link cache now dur ths fin).1 with
    | some l =>
      dsimp only
      by_cases hl : l = ""
      · rw [if_neg (by simp [hl])]
        simpa [chanTrace] using hcnt
      · rw [if_pos hl]
        simpa [chanTrace] using hcnt
    | none =>
      simpa [chanTrace] using hcnt
  · rw [if_neg hsim]
    simp [chanTrace, hsim]

/-- Claim C9 (amended): a query whose lowered and stripped form has fewer
than 3 characters causes no directory scan and is dropped silently — no
reply of any kind (neither a no-match suggestion nor an error) is sent. -/
theorem C9_theorem (text : String) (now dur : Int) (chats : List ChanEnv)
    (h : (pyStrip (pyLower text)).length < 3) :
    search_channels text now dur chats = ⟨[], 0, []⟩ := by
  simp only [search_channels]
  rw [if_pos h]


/-- Claim C1 (amended): the similarity used for ranking a candidate is the
plain character-level SequenceMatcher ratio of the query and the lowered
title — not a 0.7/0.3 blend of token-sort and containment sub-scores — and
it lies in [0, 1]. -/
theorem C1_theorem (s : String) (now dur : Int) (title : String)
    (cache : Option (Option CachedLink)) (ths : List Nat) (fin : ApiFinal)
    (m : MatchRec) (evs : List Ev)
    (h : process_channel s now dur ⟨.cached title, cache, ths, fin⟩ = .ok (some m, evs)) :
    m.similarity = get_similarity_ratio s (pyLower title) ∧
      0 ≤ m.similarity ∧ m.similarity ≤ 1 := by
  have h2 : processScored s now dur cache ths fin (pyLower title) = .ok (some m, evs) := h
  have h3 := processScored_ok_some s now dur cache ths fin _ m evs h2
  refine ⟨h3.2.2.1, ?_, ?_⟩
  · rw [h3.2.2.1]
    exact seqRatio_nonneg s.data (pyLower title).data
  · rw [h3.2.2.1]
    exact seqRatio_le_one s.data (pyLower title).data

/-- Claim C1, refutation: the score the code computes is not the blended
0.7/0.3 spec metric — on the identical pair "abc"/"abc" the code yields 1
while the spec formula yields 100. -/
theorem C1_counterexample :
    get_similarity_ratio "abc" "abc" ≠ specCombinedScore "abc" "abc" := by
  have h1 : get_similarity_ratio "abc" "abc" = 1 := by decide
  have h2 : seqRatio (sortTokens "abc") (sortTokens "abc") = 1 := by decide
  have h3 : bestWindowRatio "abc" "abc" = 1 := by decide
  rw [h1]
  unfold specCombinedScore specTokenSortSim specContainSim
  rw [h2, h3]
  norm_num

/-- Witness for C1_theorem at a concrete cache-hit candidate. -/
theorem C1_witness :
    (process_channel "abc" 0 1 ⟨.cached "ABC", some (some ⟨"L", 0⟩), [], .notExported⟩ =
      .ok (some ⟨"abc", "L", 1⟩, [.acquire, .cacheRead, .release])) ∧
    ((⟨"abc", "L", 1⟩ : MatchRec).similarity = get_similarity_ratio "abc" (pyLower "ABC") ∧
      0 ≤ (⟨"abc", "L", 1⟩ : MatchRec).similarity ∧
      (⟨"abc", "L", 1⟩ : MatchRec).similarity ≤ 1) :=
  ⟨by decide,
    C1_theorem "abc" 0 1 "ABC" (some (some ⟨"L", 0⟩)) [] .notExported ⟨"abc", "L", 1⟩
      [.acquire, .cacheRead, .release] (by decide)⟩

/-- Claim C2 (amended): once the matches accumulated through a batch contain
one with similarity above 0.9 — a candidate that was both scored above the
break threshold and successfully provisioned — the scan stops with this
batch; no later batch is processed and the accumulated matches are final. -/
theorem C2_theorem (s : String) (now dur : Int) (batch : List ChanEnv)
    (rest : List (List ChanEnv)) (acc : List MatchRec) (m : MatchRec)
    (hm : m ∈ acc ++ process_batch s now dur batch)
    (hs : mkRat 9 10 < m.similarity) :
    scanLoop s now dur (batch :: rest) acc = (acc ++ process_batch s now dur batch, 1) :=
  scanLoop_stops s now dur batch rest acc m hm
    (lt_trans (show mkRat 4 5 < mkRat 9 10 by decide) hs)

/-- Claim C2, refutation: a candidate can attain a similarity strictly above
0.9 in the first batch (here 1.0, an exact title match) while the scan still
proceeds to the second batch, because its link provisioning failed and so it
never became a match. -/
theorem C2_counterexample :
    mkRat 9 10 < get_similarity_ratio "abc" (pyLower "abc") ∧
    (search_channels "abc" 0 0 (⟨.cached "abc", none, [], .notExported⟩ ::
      List.replicate 10 ⟨.cached "zzz", none, [], .notExported⟩)).batchesScanned = 2 := by
  constructor
  · decide
  · decide

/-- Witness for C2_theorem at a concrete one-match batch. -/
theorem C2_witness :
    ((⟨"abc", "L", 1⟩ : MatchRec) ∈ ([] : List MatchRec) ++
        process_batch "abc" 0 0 [⟨.cached "abc", none, [], .exported "L"⟩] ∧
      mkRat 9 10 < (⟨"abc", "L", (1 : ℚ)⟩ : MatchRec).similarity) ∧
    scanLoop "abc" 0 0 ([⟨.cached "abc", none, [], .exported "L"⟩] ::
        [[⟨.cached "zzz", none, [], .notExported⟩]]) [] =
      (([] : List MatchRec) ++
        process_batch "abc" 0 0 [⟨.cached "abc", none, [], .exported "L"⟩], 1) :=
  ⟨⟨by decide, by decide⟩,
    C2_theorem "abc" 0 0 [⟨.cached "abc", none, [], .exported "L"⟩]
      [[⟨.cached "zzz", none, [], .notExported⟩]] [] ⟨"abc", "L", 1⟩ (by decide) (by decide)⟩

/-- Claim C3, refutation: on FloodWait(10) followed by success the trace
sleeps 15 seconds with no release beforehand — the semaphore slot is not
released before the suspension, the single release happens only at the very
end of the call. -/
theorem C3_counterexample :
    get_invite_link none 0 0 [10] (.exported "L") =
      (some "L", [.acquire, .cacheRead, .apiCall, .slept 15, .apiCall, .stored "L", .release]) ∧
    (([.acquire, .cacheRead, .apiCall, .slept 15, .apiCall, .stored "L", .release] :
        List Ev).takeWhile (fun e => !(e == .slept 15))).count .release = 0 := by
  constructor
  · decide
  · decide

/-- Witness for C3_theorem at one throttle of 10 seconds. -/
theorem C3_witness :
    (cacheFresh none 0 0 = none ∧ ("L" : String) ≠ "") ∧
    get_invite_link none 0 0 [10] (.exported "L") =
      (some "L", .acquire :: .cacheRead ::
        (throttleEvs [10] ++ [.apiCall, .stored "L", .release])) :=
  ⟨⟨by decide, by decide⟩, C3_theorem none 0 0 [10] "L" (by decide) (by decide)⟩

/-- Claim C4, refutation: a candidate with a keyword hit ("batman" appears
literally in the title) but similarity at most 0.6 is never provisioned —
the trace of its processing contains no semaphore acquire at all. -/
theorem C4_counterexample :
    specKeywordHit "batman" "zzzzzzzz batman" = true ∧
    ¬ (mkRat 3 5 < get_similarity_ratio "batman" (pyLower "zzzzzzzz batman")) ∧
    (chanTrace (process_channel "batman" 0 0
      ⟨.cached "zzzzzzzz batman", none, [], .notExported⟩)).count Ev.acquire = 0 := by
  refine ⟨by decide, by decide, by decide⟩

/-- Witness for C5_theorem at a concrete fresh cache entry. -/
theorem C5_witness :
    ((⟨"L", 0⟩ : CachedLink).link ≠ "" ∧ (0 : Int) - (⟨"L", 0⟩ : CachedLink).timestamp < 1) ∧
    get_invite_link (some (some ⟨"L", 0⟩)) 0 1 [] .notExported =
      (some "L", [.acquire, .cacheRead, .release]) :=
  ⟨⟨by decide, by decide⟩, C5_theorem 0 1 [] .notExported ⟨"L", 0⟩ (by decide) (by decide)⟩

/-- Claim C6 (amended): ChannelInvalid raised while resolving the title
deletes the chat and reports; another RPCError deletes and reports only when
its text contains "CHANNEL_PRIVATE", otherwise it reports and retains;
ChatAdminRequired during link issuance reports and retains; any other
exception during link issuance (ChannelInvalid included) is merely printed
and the chat is retained; an exception outside the RPCError hierarchy
escapes the candidate processor but is captured by the batch processor, so
the scan continues with the candidate excluded. -/
theorem C6_theorem (s : String) (now dur : Int) (cache : Option (Option CachedLink))
    (ths : List Nat) (fin : ApiFinal) (title : String) (msgP msgO : String) (e : Exn)
    (hP : containsSub msgP "CHANNEL_PRIVATE" = true)
    (hO : containsSub msgO "CHANNEL_PRIVATE" = false)
    (hsim : mkRat 3 5 < get_similarity_ratio s (pyLower title))
    (hc : cacheFresh cache now dur = none) :
    process_channel s now dur ⟨.raised .channelInvalid, cache, ths, fin⟩ =
        .ok (none, [.reported "Channel_Invalid", .deletedChat]) ∧
    process_channel s now dur ⟨.raised (.rpcError msgP), cache, ths, fin⟩ =
        .ok (none, [.reported "Channel_Private", .deletedChat]) ∧
    process_channel s now dur ⟨.raised (.rpcError msgO), cache, ths, fin⟩ =
        .ok (none, [.reported "Channel_Error"]) ∧
    process_channel s now dur ⟨.cached title, cache, ths, .adminRequired⟩ =
        .ok (none, .acquire :: .cacheRead ::
          (throttleEvs ths ++ [.apiCall, .reported "Chat_Admin_Required", .release])) ∧
    process_channel s now dur ⟨.cached title, cache, ths, .raisedApi e⟩ =
        .ok (none, .acquire :: .cacheRead ::
          (throttleEvs ths ++ [.apiCall, .consoleLog, .release])) ∧
    process_batch s now dur [⟨.raised (.otherExn msgO), cache, ths, fin⟩] = [] := by
  refine ⟨rfl, ?_, ?_, ?_, ?_, rfl⟩
  · simp [process_channel, hP]
  · simp [process_channel, hO]
  · show processScored s now dur cache ths .adminRequired (pyLower title) = _
    simp only [processScored]
    rw [if_pos hsim]
    rw [show get_invite_link cache now dur ths .adminRequired =
        (none, .acquire :: .cacheRead ::
          ((throttleEvs ths ++ [.apiCall, .reported "Chat_Admin_Required"]) ++ [.release])) by
      unfold get_invite_link
      rw [hc, issueLoop_admin ths]]
    simp [List.append_assoc]
  · show processScored s now dur cache ths (.raisedApi e) (pyLower title) = _
    simp only [processScored]
    rw [if_pos hsim]
    rw [show get_invite_link cache now dur ths (.raisedApi e) =
        (none, .acquire :: .cacheRead ::
          ((throttleEvs ths ++ [.apiCall, .consoleLog]) ++ [.release])) by
      unfold get_invite_link
      rw [hc, issueLoop_raised e ths]]
    simp [List.append_assoc]

/-- Claim C6, refutation: a ChannelInvalid signal raised during link
issuance (instead of title resolution) does not remove the resource and is
not reported — it is only printed, so the claimed removal and report for
invalid-resource signals fails on this path. -/
theorem C6_counterexample :
    process_channel "abc" 0 0 ⟨.cached "abc", none, [], .raisedApi .channelInvalid⟩ =
      .ok (none, [.acquire, .cacheRead, .apiCall, .consoleLog, .release]) ∧
    ([.acquire, .cacheRead, .apiCall, .consoleLog, .release] :
      List Ev).count Ev.deletedChat = 0 ∧
    ([.acquire, .cacheRead, .apiCall, .consoleLog, .release] :
      List Ev).count (Ev.reported "Channel_Invalid") = 0 := by
  refine ⟨by decide, by decide, by decide⟩

/-- Witness for C6_theorem at concrete messages and query. -/
theorem C6_witness :
    (containsSub "xx CHANNEL_PRIVATE xx" "CHANNEL_PRIVATE" = true ∧
      containsSub "boom" "CHANNEL_PRIVATE" = false ∧
      mkRat 3 5 < get_similarity_ratio "abc" (pyLower "abc") ∧
      cacheFresh none 0 0 = none) ∧
    (process_channel "abc" 0 0 ⟨.raised .channelInvalid, none, [], .notExported⟩ =
        .ok (none, [.reported "Channel_Invalid", .deletedChat]) ∧
    process_channel "abc" 0 0 ⟨.raised (.rpcError "xx CHANNEL_PRIVATE xx"), none, [],
        .notExported⟩ = .ok (none, [.reported "Channel_Private", .deletedChat]) ∧
    process_channel "abc" 0 0 ⟨.raised (.rpcError "boom"), none, [], .notExported⟩ =
        .ok (none, [.reported "Channel_Error"]) ∧
    process_channel "abc" 0 0 ⟨.cached "abc", none, [], .adminRequired⟩ =
        .ok (none, .acquire :: .cacheRead ::
          (throttleEvs [] ++ [.apiCall, .reported "Chat_Admin_Required", .release])) ∧
    process_channel "abc" 0 0 ⟨.cached "abc", none, [], .raisedApi .channelInvalid⟩ =
        .ok (none, .acquire :: .cacheRead ::
          (throttleEvs [] ++ [.apiCall, .consoleLog, .release])) ∧
    process_batch "abc" 0 0 [⟨.raised (.otherExn "boom"), none, [], .notExported⟩] = []) :=
  ⟨⟨by decide, by decide, by decide, by decide⟩,
    C6_theorem "abc" 0 0 none [] .notExported "abc" "xx CHANNEL_PRIVATE xx" "boom"
      .channelInvalid (by decide) (by decide) (by decide) (by decide)⟩

/-- Claim C7: on every terminating execution path of get_invite_link — cache
hit, success, throttle then retry, permission denied, or any other error —
the trace begins with the semaphore acquire, ends with the matching release,
and each occurs exactly once: no path leaves the limiter acquired. -/
theorem C7_theorem :
    ∀ (cache : Option (Option CachedLink)) (now dur : Int) (ths : List Nat) (fin : ApiFinal),
    (get_invite_link cache now dur ths fin).2.head? = some Ev.acquire ∧
    (get_invite_link cache now dur ths fin).2.getLast? = some Ev.release ∧
    (get_invite_link cache now dur ths fin).2.count Ev.acquire = 1 ∧
    (get_invite_link cache now dur ths fin).2.count Ev.release = 1 :=
  fun cache now dur ths fin => gil_sem_shape cache now dur ths fin

/-- Witness for C8_theorem: of two candidates tied at the maximal score, the
earlier one is returned. -/
theorem C8_witness :
    ((∀ x ∈ [(⟨"x", "lx", mkRat 1 2⟩ : MatchRec)],
        x.similarity < (⟨"y", "ly", mkRat 2 3⟩ : MatchRec).similarity) ∧
      (∀ x ∈ [(⟨"z", "lz", mkRat 2 3⟩ : MatchRec)],
        x.similarity ≤ (⟨"y", "ly", mkRat 2 3⟩ : MatchRec).similarity)) ∧
    get_best_match ([⟨"x", "lx", mkRat 1 2⟩] ++
        (⟨"y", "ly", mkRat 2 3⟩ : MatchRec) :: [⟨"z", "lz", mkRat 2 3⟩]) =
      some ⟨"y", "ly", mkRat 2 3⟩ :=
  ⟨⟨by decide, by decide⟩,
    C8_theorem [⟨"x", "lx", mkRat 1 2⟩] [⟨"z", "lz", mkRat 2 3⟩] ⟨"y", "ly", mkRat 2 3⟩
      (by decide) (by decide)⟩

/-- Claim C9, refutation: a 2-character query produces no directory scan and
no reply at all — in particular the requester is not sent the no-match
suggestion, contrary to the claim that the outcome is reported as no match. -/
theorem C9_counterexample :
    search_channels "ab" 0 0 [⟨.cached "ab", none, [], .notExported⟩] = ⟨[], 0, []⟩ ∧
    (search_channels "ab" 0 0 [⟨.cached "ab", none, [], .notExported⟩]).replies ≠
      [Reply.suggest] := by
  constructor
  · decide
  · decide

/-- Witness for C9_theorem at the short query "AB". -/
theorem C9_witness :
    ((pyStrip (pyLower "AB")).length < 3) ∧
    search_channels "AB" 0 0 [] = ⟨[], 0, []⟩ :=
  ⟨by decide, C9_theorem "AB" 0 0 [] (by decide)⟩

/-- Claim C10: the batch processor is total — a candidate whose processing
raises an uncaught exception contributes nothing (the gather captures it) —
and every record of the batch result carries a nonempty link and a
similarity strictly above the 0.6 acceptance threshold. -/
theorem C10_theorem (s : String) (now dur : Int) (envs : List ChanEnv) :
    (∀ m ∈ process_batch s now dur envs, m.link ≠ "" ∧ mkRat 3 5 < m.similarity) ∧
    (∀ (env : ChanEnv) (e : Exn), process_channel s now dur env = .error e →
      gatherOne s now dur env = none) := by
  constructor
  · intro m hm
    obtain ⟨env, henv, hsome⟩ := List.mem_filterMap.mp hm
    unfold gatherOne at hsome
    cases hpc : process_channel s now dur env with
    | error e => rw [hpc] at hsome; simp at hsome
    | ok r =>
      obtain ⟨r1, r2⟩ := r
      rw [hpc] at hsome
      dsimp only at hsome
      subst hsome
      exact process_channel_some_inv s now dur env m r2 hpc
  · intro env e h
    unfold gatherOne
    rw [h]

/-- Witness for C10_theorem at a concrete successful batch. -/
theorem C10_witness :
    ((⟨"abc", "L", 1⟩ : MatchRec) ∈
      process_batch "abc" 0 0 [⟨.cached "abc", none, [], .exported "L"⟩]) ∧
    (("L" : String) ≠ "" ∧ mkRat 3 5 < (1 : ℚ)) :=
  ⟨by decide,
    ( C10_theorem "abc" 0 0 [⟨.cached "abc", none, [], .exported "L"⟩]).1
      ⟨"abc", "L", 1⟩ (by decide)⟩

end GFilter
